import Mathlib

/-!
Verification development for the RoBO repository: a shallow embedding of
the DNGO surrogate model (`robo/models/dngo.py`), its shape-checking base
class (`robo/models/base_model.py`) and the information-gain-per-unit-cost
acquisition function
(`robo/acquisition/information_gain_per_unit_cost.py`), together with
theorems settling the spec claims about them.

Machine floats are modelled by exact arithmetic (`ℚ` where the code is
concrete, `ℝ` where transcendental functions appear); external
collaborators (the prior, the emcee sampler, the cost model, the entropy
superclass) are abstracted as function parameters.
-/

namespace RoBO

/-- Failures that the embedded code can signal: a shape-mismatch rejection,
the `raise("Not implemented")` statement of the acquisition function (in
Python 3 raising a plain string is itself a `TypeError`, so either way the
call terminates with an exception carrying this branch), and a failed
module-scope name lookup (`NameError`). -/
inductive PyErr
  | shapeMismatch
  | raiseNonException (msg : String)
  | nameError (missing : String)
  deriving DecidableEq

namespace BaseModel

/-- Modelled from the spec: the decorator `BaseModel._check_shapes_train`
is applied to `DNGO.train` (`dngo.py` line 116) but is not defined in the
sources (`base_model.py` lines 4-17 contain no such attribute).  The spec
states that mismatched `X`/`y` lengths are "rejected immediately with a
shape-mismatch failure before any computation."  The wrapper therefore
compares `X.shape[0]` with `y.shape[0]` and only on success invokes the
wrapped training body. -/
def check_shapes_train {σ : Type} (body : List (List ℚ) → List ℚ → σ)
    (X : List (List ℚ)) (y : List ℚ) : Except PyErr σ :=
  if X.length = y.length then Except.ok (body X y)
  else Except.error PyErr.shapeMismatch

end BaseModel

namespace DNGO

/-- Learning-rate state across the epoch loop of `DNGO.train`:
`lrAfter init adapt e` is the value of the shared learning-rate variable
after `e` completed epochs.  The variable starts at `init_learning_rate`
(`dngo.py` lines 170-171); at the end of 0-indexed epoch `e`, if
`e % adapt_epoch == 0`, it is assigned the value
`init_learning_rate * 0.1` (`dngo.py` lines 203-206). -/
def lrAfter (init : ℚ) (adapt : ℕ) : ℕ → ℚ
  | 0 => init
  | e + 1 => if e % adapt = 0 then init * (1 / 10) else lrAfter init adapt e

/-- Law-of-total-variance aggregation of `DNGO.predict` (`dngo.py` line
324) at one test point: the aggregated mean is the average of the
per-BLR-model means, `np.mean(mu, axis=0)`. -/
def aggregateMean (preds : List (ℚ × ℚ)) : ℚ :=
  (preds.map Prod.fst).sum / preds.length

/-- Law-of-total-variance aggregation of `DNGO.predict` (`dngo.py` line
325) at one test point: given the per-BLR-model predictions
`(mu_i, var_i)`, the aggregated variance is
`np.mean(mu ** 2 + var, axis=0) - m ** 2`. -/
def aggregateVar (preds : List (ℚ × ℚ)) : ℚ :=
  (preds.map fun p => p.1 ^ 2 + p.2).sum / preds.length
    - aggregateMean preds ^ 2

/-- Machine epsilon of a float64 array, `np.finfo(v.dtype).eps`, the
clipping floor used by `DNGO.predict`. -/
def f64eps : ℚ := 1 / 2 ^ 52

/-- The clipping step of `DNGO.predict` (`dngo.py` lines 329-333) applied
to the vector `v` of aggregated variances: in both branches
`np.clip(v, eps, np.inf)` replaces each entry by `max eps entry`; in the
`v.shape[0] != 1` branch, entries strictly between `-eps` and `eps` are
afterwards reset to `0` (dead after the clip, but kept verbatim). -/
def clipVariances (v : List ℚ) : List ℚ :=
  if v.length = 1 then v.map fun x => max f64eps x
  else (v.map fun x => max f64eps x).map
    fun x => if x < f64eps ∧ -f64eps < x then 0 else x

/-- Variance post-processing of `DNGO.predict` (`dngo.py` lines 329-337):
the aggregated variances are clipped, and when output normalization is
enabled the result is rescaled by `self.y_std ** 2` before being
returned. -/
def predictVariances (normOut : Bool) (y_std : ℚ) (v : List ℚ) : List ℚ :=
  let c := clipVariances v
  if normOut then c.map fun x => x * y_std ^ 2 else c

/-- Batch start indices generated by `range(0, inputs.shape[0] - batchsize + 1,
batchsize)` in `DNGO.iterate_minibatches` (`dngo.py` line 295), for `n`
training points and batch size `b`.  Python's `range(0, stop, b)` is empty
when `stop <= 0` and otherwise has `(stop - 1) / b + 1` elements. -/
def batchStarts (n b : ℕ) : List ℕ :=
  let stop : ℤ := (n : ℤ) - b + 1
  if stop ≤ 0 then []
  else (List.range ((stop - 1) / (b : ℤ) + 1).toNat).map fun k => k * b

/-- `DNGO.iterate_minibatches` (`dngo.py` lines 289-300) for one epoch:
`idx` is the epoch's ordering of the training samples (the shuffled index
list when `shuffle=True`); for each start index the generator yields the
excerpt of `b` consecutive entries.  We collect the yielded batches. -/
def iterate_minibatches {α : Type} (idx : List α) (b : ℕ) : List (List α) :=
  (batchStarts idx.length b).map fun s => (idx.drop s).take b

/-- The MCMC chain state carried across `train` calls: the `burned` flag
(`dngo.py` line 93) together with, once burnt in, the saved walker
positions `self.p0`. -/
inductive ChainState (Pos : Type)
  | unburned
  | burned (p0 : Pos)

/-- The boolean `self.burned` attribute read by `DNGO.train`
(`dngo.py` line 218). -/
def ChainState.isBurned {Pos : Type} : ChainState Pos → Bool
  | .unburned => false
  | .burned _ => true

/-- State installed by `DNGO.__init__` (`dngo.py` line 93):
`self.burned = False`, and no walker positions saved yet. -/
def initialChainState (Pos : Type) : ChainState Pos := ChainState.unburned

/-- The MCMC branch of `DNGO.train` (`dngo.py` lines 212-236), taken when
`do_optimize` and `do_mcmc` are both true, with the stochastic sampler
abstracted: `samplePrior` stands for `self.prior.sample_from_prior(self.n_hypers)`
and `run p n` for the final walker positions returned by
`self.sampler.run_mcmc(p, n)`.  If the chain is unburned, the walkers are
initialized from the prior, run for `burnin` steps and the flag is set;
then the chain is run for `chain` further steps from the current `p0` and
the final positions are saved as the new `p0`.  The result records the new
state together with the start and end positions of that `chain_length`
sampling run. -/
def trainMCMC {Pos : Type} (samplePrior : Pos) (run : Pos → ℕ → Pos)
    (burnin chain : ℕ) : ChainState Pos → ChainState Pos × Pos × Pos
  | ChainState.unburned =>
      let p0 := run samplePrior burnin
      let pos := run p0 chain
      (ChainState.burned pos, p0, pos)
  | ChainState.burned p0 =>
      let pos := run p0 chain
      (ChainState.burned pos, p0, pos)

/-- The hard bound check at the top of `DNGO.marginal_log_likelihood`
(`dngo.py` line 259): `np.any((-5 > theta) + (theta > 10))` is true when
some component of `theta` is strictly below `-5` or strictly above
`10`. -/
def thetaOutOfBounds (theta : Fin 2 → ℝ) : Prop :=
  ∃ i, theta i < -5 ∨ 10 < theta i

/-- The matrix actually inverted by `DNGO.marginal_log_likelihood`
(`dngo.py` lines 268-269): `K = beta * np.dot(Theta.T, Theta)` plus
`np.eye(Theta.shape[1]) * alpha ** 2` — the term on the diagonal is
`alpha` squared. -/
def Kmat {N H : ℕ} (alpha beta : ℝ) (Theta : Matrix (Fin N) (Fin H) ℝ) :
    Matrix (Fin H) (Fin H) ℝ :=
  beta • (Theta.transpose * Theta) + alpha ^ 2 • (1 : Matrix (Fin H) (Fin H) ℝ)

/-- The matrix the claim says is inverted: `K = beta*Theta^T*Theta +
alpha*I`, with "the term added to the diagonal is alpha itself, not a power
of alpha".  Stated from the claim's words, to be compared with `Kmat`. -/
def KmatClaimed {N H : ℕ} (alpha beta : ℝ) (Theta : Matrix (Fin N) (Fin H) ℝ) :
    Matrix (Fin H) (Fin H) ℝ :=
  beta • (Theta.transpose * Theta) + alpha • (1 : Matrix (Fin H) (Fin H) ℝ)

/-- The in-bounds branch of `DNGO.marginal_log_likelihood` (`dngo.py`
lines 262-283): `alpha = exp(theta[0])`, `beta = exp(theta[1])`,
`K = beta ΘᵀΘ + alpha² I` is inverted, the weight mean is
`m = beta · K⁻¹ Θᵀ y`, and the returned evidence is
`D/2 log alpha + N/2 log beta - N/2 log(2 pi) - beta/2 ‖y - Θ m‖₂
- alpha/2 mᵀm - 1/2 log det K` plus the external prior's log-density
(abstracted as `lnprob`) at the reparameterized point
`(theta[0], log(1 / exp(theta[1])))`.  `D` and `N` are `self.X.shape[1]`
and `self.X.shape[0]`; note line 277 takes the Euclidean norm of the
residual, not its square. -/
noncomputable def mllBody {N H : ℕ} (lnprob : (Fin 2 → ℝ) → ℝ) (D : ℕ)
    (Theta : Matrix (Fin N) (Fin H) ℝ) (y : Fin N → ℝ)
    (theta : Fin 2 → ℝ) : ℝ :=
  let alpha := Real.exp (theta 0)
  let beta := Real.exp (theta 1)
  let K := beta • (Theta.transpose * Theta)
    + alpha ^ 2 • (1 : Matrix (Fin H) (Fin H) ℝ)
  let K_inv := K⁻¹
  let m := beta • (K_inv * Theta.transpose).mulVec y
  let mll := (D : ℝ) / 2 * Real.log alpha
    + (N : ℝ) / 2 * Real.log beta
    - (N : ℝ) / 2 * Real.log (2 * Real.pi)
    - beta / 2 * Real.sqrt (∑ i, (y i - Theta.mulVec m i) ^ 2)
    - alpha / 2 * (∑ j, m j * m j)
    - 1 / 2 * Real.log K.det
  mll + lnprob ![theta 0, Real.log (1 / Real.exp (theta 1))]

open Classical in
/-- `DNGO.marginal_log_likelihood` (`dngo.py` lines 257-283): any
out-of-bounds component of `theta` makes the function return the sentinel
`-1e25` immediately (line 260); otherwise the closed-form evidence of
`mllBody` is computed. -/
noncomputable def marginal_log_likelihood {N H : ℕ}
    (lnprob : (Fin 2 → ℝ) → ℝ) (D : ℕ) (Theta : Matrix (Fin N) (Fin H) ℝ)
    (y : Fin N → ℝ) (theta : Fin 2 → ℝ) : ℝ :=
  if thetaOutOfBounds theta then -1e25
  else mllBody lnprob D Theta y theta

end DNGO

namespace InformationGainPerUnitCost

/-- Names bound at module scope of
`robo/acquisition/information_gain_per_unit_cost.py`: the import
statements (lines 8-11) bind `np`, `EntropyMC` and `Entropy`, and the
class statement (line 14) binds `InformationGainPerUnitCost`.  No other
global name is defined in the module. -/
def moduleScope : List String :=
  ["np", "EntropyMC", "Entropy", "InformationGainPerUnitCost"]

/-- `InformationGainPerUnitCost.compute` (`information_gain_per_unit_cost.py`
lines 58-100), with the external collaborators abstracted: `predictCost X`
models `self.cost_model.predict(X)[0]`, `entropyCompute X` models the
superclass entropy computation `Entropy.compute(self, X)`, and `expFn`
models `np.exp`.  After predicting the log cost, the `derivative=True`
branch executes `raise("Not implemented")`; the `derivative=False` branch
first resolves the global name `EnvironmentEntropy` (needed for
`super(EnvironmentEntropy, self)`), failing with a `NameError` when it is
not in scope, before the entropy term could be computed. -/
def compute {α : Type} (predictCost : α → ℚ) (entropyCompute : α → ℚ)
    (expFn : ℚ → ℚ) (X : α) (derivative : Bool) : Except PyErr ℚ :=
  let log_cost := predictCost X
  if derivative then
    Except.error (PyErr.raiseNonException "Not implemented")
  else if "EnvironmentEntropy" ∈ moduleScope then
    Except.ok (entropyCompute X / expFn log_cost)
  else
    Except.error (PyErr.nameError "EnvironmentEntropy")

end InformationGainPerUnitCost

/-- C1: a `DNGO.train` call whose `X` and `y` lengths differ is rejected
with a shape-mismatch failure; the result is the same for every wrapped
training body, so no normalization, network building or training
computation takes place. -/
theorem train_shape_mismatch_rejected {σ : Type}
    (body : List (List ℚ) → List ℚ → σ) (X : List (List ℚ)) (y : List ℚ)
    (h : X.length ≠ y.length) :
    BaseModel.check_shapes_train body X y = Except.error PyErr.shapeMismatch := by
  simp [BaseModel.check_shapes_train, h]

theorem train_shape_mismatch_rejected_witness :
    ([[(1 : ℚ)]] : List (List ℚ)).length ≠ ([] : List ℚ).length ∧
    BaseModel.check_shapes_train (fun _ _ => (0 : ℚ)) [[(1 : ℚ)]] []
      = Except.error PyErr.shapeMismatch :=
  ⟨by decide, train_shape_mismatch_rejected (fun _ _ => (0 : ℚ)) [[(1 : ℚ)]] []
    (by decide)⟩

/-- C2 counterexample: with `init_learning_rate = 1` and `adapt_epoch = 1`,
after two completed epochs the adaptation has fired at the ends of epochs 0
and 1 (two adaptation points), yet the learning rate is `1 * 0.1 = 1/10`,
not `1 / 10^2` as the claimed compounding decay would require. -/
theorem learning_rate_decay_cex :
    DNGO.lrAfter 1 1 2 = 1 / 10 ∧ DNGO.lrAfter 1 1 2 ≠ 1 / 10 ^ 2 := by
  norm_num [DNGO.lrAfter]

/-- C2 amended: at every epoch `e` with `e % adapt_epoch == 0` the
learning rate is assigned the constant `init_learning_rate * 0.1`, and it
is never assigned anything else; since epoch 0 always triggers the
assignment, after any positive number of completed epochs the learning
rate equals `init_learning_rate / 10`, no matter how many adaptation
points have passed — the decay does not compound. -/
theorem learning_rate_constant_after_first_epoch (init : ℚ) (adapt e : ℕ)
    (_ha : 1 ≤ adapt) (he : 1 ≤ e) :
    DNGO.lrAfter init adapt e = init * (1 / 10) := by
  induction e with
  | zero => exact absurd he (by decide)
  | succ e ih =>
    rcases Nat.eq_zero_or_pos e with h0 | hpos
    · subst h0
      simp [DNGO.lrAfter]
    · by_cases hmod : e % adapt = 0
      · simp [DNGO.lrAfter, hmod]
      · simpa [DNGO.lrAfter, hmod] using ih hpos

theorem learning_rate_constant_after_first_epoch_witness :
    ((1 : ℕ) ≤ 3 ∧ (1 : ℕ) ≤ 5) ∧ DNGO.lrAfter 2 3 5 = 2 * (1 / 10) :=
  ⟨⟨by decide, by decide⟩,
    learning_rate_constant_after_first_epoch 2 3 5 (by decide) (by decide)⟩

/-- C5: if every BLR sub-model returns the identical pair `(a, b)` at a
test point, the law-of-total-variance aggregation of `DNGO.predict`
returns exactly the variance `b` (and the mean `a`): the cross-model
disagreement term vanishes. -/
theorem aggregate_identical_models (preds : List (ℚ × ℚ)) (a b : ℚ)
    (hne : preds ≠ []) (hall : ∀ p ∈ preds, p = (a, b)) :
    DNGO.aggregateVar preds = b ∧ DNGO.aggregateMean preds = a := by
  have hrep : preds = List.replicate preds.length (a, b) :=
    List.eq_replicate_length.mpr hall
  have hn0 : (preds.length : ℚ) ≠ 0 := by
    have h1 : preds.length ≠ 0 := fun h => hne (List.length_eq_zero.mp h)
    exact_mod_cast h1
  have hmean : DNGO.aggregateMean preds = a := by
    rw [DNGO.aggregateMean, hrep]
    simp only [List.map_replicate, List.sum_replicate, List.length_replicate,
      nsmul_eq_mul]
    field_simp
  refine ⟨?_, hmean⟩
  rw [DNGO.aggregateVar, hmean, hrep]
  simp only [List.map_replicate, List.sum_replicate, List.length_replicate,
    nsmul_eq_mul]
  field_simp

theorem aggregate_identical_models_witness :
    (([((3 : ℚ), (5 : ℚ)), (3, 5)] : List (ℚ × ℚ)) ≠ [] ∧
      ∀ p ∈ ([((3 : ℚ), (5 : ℚ)), (3, 5)] : List (ℚ × ℚ)), p = (3, 5)) ∧
    (DNGO.aggregateVar [(3, 5), (3, 5)] = 5 ∧
      DNGO.aggregateMean [(3, 5), (3, 5)] = 3) :=
  ⟨⟨by decide, by decide⟩,
    aggregate_identical_models [(3, 5), (3, 5)] 3 5 (by decide) (by decide)⟩

/-- C4 counterexample: with output normalization enabled and
`y_std = 1/2` (both reachable: they are the defaults and the normalization
statistic of a non-constant `y`), a test point at which the single BLR
sub-model predicts `(mean, var) = (0, 0)` has aggregated variance `0`,
which is clipped up to the floor `eps` but then rescaled to `eps / 4` —
the variance returned by `DNGO.predict` falls strictly below the
configured floor. -/
theorem predict_variance_floor_cex :
    DNGO.predictVariances true (1 / 2) [DNGO.aggregateVar [(0, 0)]]
      = [DNGO.f64eps * (1 / 4)] ∧
    DNGO.f64eps * (1 / 4) < DNGO.f64eps := by
  constructor
  · norm_num [DNGO.predictVariances, DNGO.clipVariances, DNGO.aggregateVar,
      DNGO.aggregateMean, DNGO.f64eps]
  · norm_num [DNGO.f64eps]

/-- C4 amended: every aggregated variance is clipped to the positive floor
`eps = 2^-52`, so before output unnormalization it is at least `eps` and in
particular never zero or negative, and with output normalization disabled
the returned variances respect the floor.  With output normalization
enabled, `DNGO.predict` returns the clipped variances multiplied by
`y_std ^ 2`: they are still strictly positive whenever `y_std ≠ 0`, but
they can fall below the configured floor. -/
theorem predict_variance_clipped_then_rescaled (y_std : ℚ) (v : List ℚ)
    (hstd : y_std ≠ 0) :
    (∀ x ∈ DNGO.clipVariances v, DNGO.f64eps ≤ x ∧ 0 < x) ∧
    (∀ x ∈ DNGO.predictVariances false y_std v, DNGO.f64eps ≤ x) ∧
    (∀ x ∈ DNGO.predictVariances true y_std v, 0 < x) ∧
    DNGO.predictVariances true y_std v
      = (DNGO.clipVariances v).map fun x => x * y_std ^ 2 := by
  have heps : (0 : ℚ) < DNGO.f64eps := by norm_num [DNGO.f64eps]
  have hsq : (0 : ℚ) < y_std ^ 2 := by
    rcases lt_or_gt_of_ne hstd with h | h <;> nlinarith
  have hclip : ∀ x ∈ DNGO.clipVariances v, DNGO.f64eps ≤ x := by
    intro x hx
    rw [DNGO.clipVariances] at hx
    by_cases h1 : v.length = 1
    · rw [if_pos h1] at hx
      obtain ⟨z, _, rfl⟩ := List.mem_map.mp hx
      exact le_max_left _ _
    · rw [if_neg h1, List.map_map] at hx
      obtain ⟨z, _, rfl⟩ := List.mem_map.mp hx
      simp only [Function.comp]
      have hz : DNGO.f64eps ≤ max DNGO.f64eps z := le_max_left _ _
      rw [if_neg]
      · exact hz
      · rintro ⟨hlt, _⟩
        exact absurd hlt (not_lt.mpr hz)
  refine ⟨fun x hx => ⟨hclip x hx, lt_of_lt_of_le heps (hclip x hx)⟩, ?_, ?_, rfl⟩
  · intro x hx
    exact hclip x (by simpa [DNGO.predictVariances] using hx)
  · intro x hx
    simp only [DNGO.predictVariances, if_pos] at hx
    obtain ⟨z, hz, rfl⟩ := List.mem_map.mp hx
    exact mul_pos (lt_of_lt_of_le heps (hclip z hz)) hsq

theorem predict_variance_clipped_then_rescaled_witness :
    ((1 : ℚ) / 2 ≠ 0) ∧
    ((∀ x ∈ DNGO.clipVariances [0], DNGO.f64eps ≤ x ∧ 0 < x) ∧
      (∀ x ∈ DNGO.predictVariances false (1 / 2) [0], DNGO.f64eps ≤ x) ∧
      (∀ x ∈ DNGO.predictVariances true (1 / 2) [0], 0 < x) ∧
      DNGO.predictVariances true (1 / 2) [0]
        = (DNGO.clipVariances [0]).map fun x => x * (1 / 2 : ℚ) ^ 2) :=
  ⟨by norm_num,
    predict_variance_clipped_then_rescaled (1 / 2) [0] (by norm_num)⟩

/-- Helper: under the claim's hypotheses `1 ≤ b ≤ n`, the start indices
generated by `range(0, n - b + 1, b)` are `0, b, ..., (n / b - 1) * b`. -/
theorem batchStarts_eq (n b : ℕ) (hb : 1 ≤ b) (hbn : b ≤ n) :
    DNGO.batchStarts n b = (List.range (n / b)).map fun k => k * b := by
  have hstop : ¬ ((n : ℤ) - b + 1 ≤ 0) := by omega
  have hq : (n - b) / b + 1 = n / b := (Nat.div_eq_sub_div hb hbn).symm
  unfold DNGO.batchStarts
  rw [if_neg hstop]
  have hcast : (((n : ℤ) - b + 1 - 1) / (b : ℤ) + 1).toNat = n / b := by
    have h1 : (n : ℤ) - b + 1 - 1 = ((n - b : ℕ) : ℤ) := by omega
    rw [h1, ← Int.natCast_div, ← hq]
    generalize (n - b) / b = m
    omega
  rw [hcast]

/-- Helper: the concatenation of the first `q` size-`b` batches is the
first `q * b` entries of the epoch ordering. -/
theorem flatten_batches {α : Type} (idx : List α) (b q : ℕ)
    (h : q * b ≤ idx.length) :
    ((List.range q).map fun k => (idx.drop (k * b)).take b).flatten
      = idx.take (q * b) := by
  induction q with
  | zero => simp
  | succ q ih =>
    have hq : q * b ≤ idx.length :=
      le_trans (Nat.mul_le_mul_right b (Nat.le_succ q)) h
    rw [List.range_succ, List.map_append, List.flatten_append, ih hq]
    simp only [List.map_cons, List.map_nil, List.flatten_cons, List.flatten_nil,
      List.append_nil]
    rw [show (q + 1) * b = q * b + b by ring, List.take_add]

/-- C7: for an epoch ordering of `N ≥ b ≥ 1` training samples,
`DNGO.iterate_minibatches` yields exactly `⌊N / b⌋` batches, each of size
exactly `b`; together the batches are exactly the first `⌊N / b⌋ * b`
entries of the ordering, so the remaining `N mod b` samples of the epoch's
ordering appear in no batch. -/
theorem minibatch_count_and_remainder {α : Type} (idx : List α) (b : ℕ)
    (hb : 1 ≤ b) (hbn : b ≤ idx.length) :
    (DNGO.iterate_minibatches idx b).length = idx.length / b ∧
    (∀ batch ∈ DNGO.iterate_minibatches idx b, batch.length = b) ∧
    (DNGO.iterate_minibatches idx b).flatten
      = idx.take (idx.length / b * b) ∧
    (idx.Nodup → ∀ x ∈ idx.drop (idx.length / b * b),
      ∀ batch ∈ DNGO.iterate_minibatches idx b, x ∉ batch) := by
  have hE : DNGO.iterate_minibatches idx b
      = (List.range (idx.length / b)).map fun k => (idx.drop (k * b)).take b := by
    rw [DNGO.iterate_minibatches, batchStarts_eq idx.length b hb hbn,
      List.map_map]
    rfl
  have hqb : idx.length / b * b ≤ idx.length := Nat.div_mul_le_self _ _
  have hflat : (DNGO.iterate_minibatches idx b).flatten
      = idx.take (idx.length / b * b) := by
    rw [hE]
    exact flatten_batches idx b _ hqb
  refine ⟨?_, ?_, hflat, ?_⟩
  · rw [hE]
    simp
  · intro batch hbatch
    rw [hE] at hbatch
    obtain ⟨k, hk, rfl⟩ := List.mem_map.mp hbatch
    rw [List.mem_range] at hk
    have hkb : k * b + b ≤ idx.length := by
      have h1 : (k + 1) * b ≤ idx.length / b * b := Nat.mul_le_mul_right b hk
      have h2 : (k + 1) * b = k * b + b := by ring
      omega
    rw [List.length_take, List.length_drop]
    omega
  · intro hnd x hx batch hbatch hxb
    have hxflat : x ∈ (DNGO.iterate_minibatches idx b).flatten :=
      List.mem_flatten.mpr ⟨batch, hbatch, hxb⟩
    rw [hflat] at hxflat
    have hsplit := List.take_append_drop (idx.length / b * b) idx
    rw [← hsplit, List.nodup_append] at hnd
    exact hnd.2.2 hxflat hx

theorem minibatch_count_and_remainder_witness :
    ((1 : ℕ) ≤ 2 ∧ 2 ≤ ([0, 1, 2, 3, 4] : List ℕ).length) ∧
    ((DNGO.iterate_minibatches ([0, 1, 2, 3, 4] : List ℕ) 2).length
        = ([0, 1, 2, 3, 4] : List ℕ).length / 2 ∧
      (∀ batch ∈ DNGO.iterate_minibatches ([0, 1, 2, 3, 4] : List ℕ) 2,
        batch.length = 2) ∧
      (DNGO.iterate_minibatches ([0, 1, 2, 3, 4] : List ℕ) 2).flatten
        = ([0, 1, 2, 3, 4] : List ℕ).take
            (([0, 1, 2, 3, 4] : List ℕ).length / 2 * 2) ∧
      (([0, 1, 2, 3, 4] : List ℕ).Nodup →
        ∀ x ∈ ([0, 1, 2, 3, 4] : List ℕ).drop
            (([0, 1, 2, 3, 4] : List ℕ).length / 2 * 2),
          ∀ batch ∈ DNGO.iterate_minibatches ([0, 1, 2, 3, 4] : List ℕ) 2,
            x ∉ batch)) :=
  ⟨⟨by decide, by decide⟩,
    minibatch_count_and_remainder ([0, 1, 2, 3, 4] : List ℕ) 2
      (by decide) (by decide)⟩

/-- C6: the `burned` flag starts false at construction, is true after
every `train` call in MCMC mode (so it flips to true on the first call and
never reverts — exactly one false-to-true transition over the object's
lifetime); the first call's sampling chain starts from the burn-in result,
and a subsequent call's chain starts exactly from the final walker
positions saved as `p0` by the previous call. -/
theorem mcmc_burned_once_and_warm_start {Pos : Type}
    (sp1 sp2 : Pos) (run1 run2 : Pos → ℕ → Pos) (b1 c1 b2 c2 : ℕ)
    (s : DNGO.ChainState Pos) :
    (DNGO.initialChainState Pos).isBurned = false ∧
    (DNGO.trainMCMC sp1 run1 b1 c1 s).1.isBurned = true ∧
    (DNGO.trainMCMC sp1 run1 b1 c1 (DNGO.initialChainState Pos)).2.1
      = run1 sp1 b1 ∧
    (DNGO.trainMCMC sp2 run2 b2 c2 (DNGO.trainMCMC sp1 run1 b1 c1 s).1).2.1
      = (DNGO.trainMCMC sp1 run1 b1 c1 s).2.2 := by
  cases s <;>
    simp [DNGO.trainMCMC, DNGO.initialChainState, DNGO.ChainState.isBurned]

/-- C8: the bound check of `DNGO.marginal_log_likelihood`: a `theta` with
some component strictly below `-5` or strictly above `10` makes the
function return the sentinel `-1e25`, whatever the design matrix and
targets are (so no linear algebra is performed and nothing can raise);
when every component lies in `[-5, 10]` the guard does not fire and the
closed-form evidence branch is what is returned. -/
theorem mll_sentinel_bounds {N H : ℕ} (lnprob : (Fin 2 → ℝ) → ℝ) (D : ℕ)
    (Theta : Matrix (Fin N) (Fin H) ℝ) (y : Fin N → ℝ) (theta : Fin 2 → ℝ) :
    ((∃ i, theta i < -5 ∨ 10 < theta i) →
      DNGO.marginal_log_likelihood lnprob D Theta y theta = -1e25) ∧
    ((∀ i, -5 ≤ theta i ∧ theta i ≤ 10) →
      DNGO.marginal_log_likelihood lnprob D Theta y theta
        = DNGO.mllBody lnprob D Theta y theta) := by
  constructor
  · intro h
    unfold DNGO.marginal_log_likelihood
    rw [if_pos (show DNGO.thetaOutOfBounds theta from h)]
  · intro h
    have hn : ¬ DNGO.thetaOutOfBounds theta := by
      rintro ⟨i, hi | hi⟩
      · exact absurd hi (not_lt.mpr (h i).1)
      · exact absurd hi (not_lt.mpr (h i).2)
    unfold DNGO.marginal_log_likelihood
    rw [if_neg hn]

theorem mll_sentinel_bounds_witness :
    DNGO.marginal_log_likelihood (fun _ => 0) 1 (1 : Matrix (Fin 1) (Fin 1) ℝ)
      (fun _ => 0) (fun _ => 11) = -1e25 ∧
    DNGO.marginal_log_likelihood (fun _ => 0) 1 (1 : Matrix (Fin 1) (Fin 1) ℝ)
      (fun _ => 0) (fun _ => 0)
      = DNGO.mllBody (fun _ => 0) 1 (1 : Matrix (Fin 1) (Fin 1) ℝ)
        (fun _ => 0) (fun _ => 0) :=
  ⟨(mll_sentinel_bounds (fun _ => 0) 1 (1 : Matrix (Fin 1) (Fin 1) ℝ)
      (fun _ => 0) (fun _ => 11)).1 ⟨0, Or.inr (by norm_num)⟩,
    (mll_sentinel_bounds (fun _ => 0) 1 (1 : Matrix (Fin 1) (Fin 1) ℝ)
      (fun _ => 0) (fun _ => 0)).2 (fun _ => by norm_num)⟩

/-- C3 counterexample: at the admissible point `theta = (log 2, 0)` — so
`alpha = exp(theta 0) = 2` and `beta = exp(theta 1) = 1` — and the 1×1
design matrix `Theta = 0`, the matrix built and inverted by
`marginal_log_likelihood` is `beta ΘᵀΘ + alpha² I = 4 I`, which differs
from the matrix `beta ΘᵀΘ + alpha I = 2 I` asserted by the claim: the term
added to the diagonal is a power of `alpha`, not `alpha` itself. -/
theorem mll_diagonal_term_cex :
    (∀ i : Fin 2, -5 ≤ (![Real.log 2, 0] : Fin 2 → ℝ) i ∧
      (![Real.log 2, 0] : Fin 2 → ℝ) i ≤ 10) ∧
    DNGO.Kmat (Real.exp ((![Real.log 2, 0] : Fin 2 → ℝ) 0))
        (Real.exp ((![Real.log 2, 0] : Fin 2 → ℝ) 1))
        (0 : Matrix (Fin 1) (Fin 1) ℝ)
      ≠ DNGO.KmatClaimed (Real.exp ((![Real.log 2, 0] : Fin 2 → ℝ) 0))
        (Real.exp ((![Real.log 2, 0] : Fin 2 → ℝ) 1))
        (0 : Matrix (Fin 1) (Fin 1) ℝ) := by
  have hlog0 : (0 : ℝ) ≤ Real.log 2 := Real.log_nonneg (by norm_num)
  have hlog1 : Real.log 2 ≤ 1 := by
    have := Real.log_le_sub_one_of_pos (x := 2) (by norm_num)
    linarith
  constructor
  · intro i
    have hb : (![Real.log 2, 0] : Fin 2 → ℝ) i = Real.log 2 ∨
        (![Real.log 2, 0] : Fin 2 → ℝ) i = 0 := by
      fin_cases i
      · exact Or.inl rfl
      · exact Or.inr rfl
    rcases hb with hb | hb <;> rw [hb] <;> constructor <;> linarith
  · intro h
    have hα : Real.exp ((![Real.log 2, 0] : Fin 2 → ℝ) 0) = 2 := by
      simp only [Matrix.cons_val_zero]
      exact Real.exp_log (by norm_num)
    have h00 := congrFun (congrFun h 0) 0
    simp only [DNGO.Kmat, DNGO.KmatClaimed, Matrix.transpose_zero,
      Matrix.mul_zero, smul_zero, zero_add, Matrix.smul_apply,
      Matrix.one_apply_eq, smul_eq_mul, mul_one, hα] at h00
    norm_num at h00

/-- C3 amended: for every `theta` inside the admissible region,
`DNGO.marginal_log_likelihood` inverts the matrix
`K = beta ΘᵀΘ + alpha² I` — the term added to the diagonal is `alpha`
squared, not `alpha` itself — and uses the weight mean
`m = beta K⁻¹ Θᵀ y` in the evidence it returns. -/
theorem mll_inverts_alpha_sq_matrix {N H : ℕ} (lnprob : (Fin 2 → ℝ) → ℝ)
    (D : ℕ) (Theta : Matrix (Fin N) (Fin H) ℝ) (y : Fin N → ℝ)
    (theta : Fin 2 → ℝ) (h : ∀ i, -5 ≤ theta i ∧ theta i ≤ 10) :
    DNGO.marginal_log_likelihood lnprob D Theta y theta =
      (let alpha := Real.exp (theta 0)
       let beta := Real.exp (theta 1)
       let K := DNGO.Kmat alpha beta Theta
       let m := beta • ((K⁻¹ * Theta.transpose).mulVec y)
       (D : ℝ) / 2 * Real.log alpha
         + (N : ℝ) / 2 * Real.log beta
         - (N : ℝ) / 2 * Real.log (2 * Real.pi)
         - beta / 2 * Real.sqrt (∑ i, (y i - Theta.mulVec m i) ^ 2)
         - alpha / 2 * (∑ j, m j * m j)
         - 1 / 2 * Real.log K.det
         + lnprob ![theta 0, Real.log (1 / Real.exp (theta 1))]) := by
  have hn : ¬ DNGO.thetaOutOfBounds theta := by
    rintro ⟨i, hi | hi⟩
    · exact absurd hi (not_lt.mpr (h i).1)
    · exact absurd hi (not_lt.mpr (h i).2)
  unfold DNGO.marginal_log_likelihood
  rw [if_neg hn]
  rfl

theorem mll_inverts_alpha_sq_matrix_witness :
    (∀ i : Fin 2, -5 ≤ (fun _ : Fin 2 => (0 : ℝ)) i ∧
      (fun _ : Fin 2 => (0 : ℝ)) i ≤ 10) ∧
    DNGO.marginal_log_likelihood (fun _ => 0) 1 (1 : Matrix (Fin 1) (Fin 1) ℝ)
      (fun _ => 0) (fun _ => 0) =
      (let alpha := Real.exp ((fun _ : Fin 2 => (0 : ℝ)) 0)
       let beta := Real.exp ((fun _ : Fin 2 => (0 : ℝ)) 1)
       let K := DNGO.Kmat alpha beta (1 : Matrix (Fin 1) (Fin 1) ℝ)
       let m := beta • ((K⁻¹ * (1 : Matrix (Fin 1) (Fin 1) ℝ).transpose).mulVec
         (fun _ => 0))
       ((1 : ℕ) : ℝ) / 2 * Real.log alpha
         + ((1 : ℕ) : ℝ) / 2 * Real.log beta
         - ((1 : ℕ) : ℝ) / 2 * Real.log (2 * Real.pi)
         - beta / 2 * Real.sqrt (∑ i,
             ((fun _ : Fin 1 => (0 : ℝ)) i
               - (1 : Matrix (Fin 1) (Fin 1) ℝ).mulVec m i) ^ 2)
         - alpha / 2 * (∑ j, m j * m j)
         - 1 / 2 * Real.log K.det
         + (fun _ : Fin 2 → ℝ => (0 : ℝ))
             ![(fun _ : Fin 2 => (0 : ℝ)) 0,
               Real.log (1 / Real.exp ((fun _ : Fin 2 => (0 : ℝ)) 1))]) :=
  ⟨fun _ => by norm_num,
    mll_inverts_alpha_sq_matrix (fun _ => 0) 1 (1 : Matrix (Fin 1) (Fin 1) ℝ)
      (fun _ => 0) (fun _ => 0) (fun _ => by norm_num)⟩

/-- C9: for every input and every behaviour of the external cost model,
`InformationGainPerUnitCost.compute` with `derivative=True` terminates in
the `raise("Not implemented")` statement — it raises rather than returning
a value or falling back to the non-derivative branch. -/
theorem compute_derivative_raises {α : Type}
    (predictCost entropyCompute : α → ℚ) (expFn : ℚ → ℚ) (X : α) :
    InformationGainPerUnitCost.compute predictCost entropyCompute expFn X true
      = Except.error (PyErr.raiseNonException "Not implemented") :=
  rfl

/-- C10: for every input, `InformationGainPerUnitCost.compute` with
`derivative=False` also fails: the branch refers to the global name
`EnvironmentEntropy`, which is bound nowhere in the module scope, so name
resolution fails before the entropy term is computed. -/
theorem compute_nonderivative_name_error {α : Type}
    (predictCost entropyCompute : α → ℚ) (expFn : ℚ → ℚ) (X : α) :
    InformationGainPerUnitCost.compute predictCost entropyCompute expFn X false
      = Except.error (PyErr.nameError "EnvironmentEntropy") ∧
    "EnvironmentEntropy" ∉ InformationGainPerUnitCost.moduleScope :=
  ⟨rfl, by decide⟩

end RoBO
